import Mathlib

/-!
Verification of the data-reshaping pipeline of the covid-uk-dashboard
repository.  The definitions below are a shallow embedding of the Python
source:

* `src/src/modules/dataframe_builder.py` (classes `Zoe`, `Deaths`,
  `Healthcare`, and `make_default_dataframes`),
* `src/src/modules/utils.py` (`aggregate_dataframes`),
* `src/covid_chart_generator.py` (`process_zoe`, the older revision that
  drops the national rows),
* the `rolling(window=w).mean()` smoothing used by
  `src/src/covid_chart_generator.py` (`individual_charts`).

Tables are embedded with calendar dates as naturals (the sources parse all
dates with `pd.to_datetime` before the steps modelled here, so the embedding
works with already-parsed, totally ordered dates) and metric values as
rationals.  A pandas `NaN` cell is `Option.none`.  `pandas.pivot_table`
sorts its row index ascending and merges duplicate keys with its default
`mean` aggregator; the lexicographic ordering pandas also applies to the
*column* axis is not relied upon by any property below, so region columns
are kept as a deduplicated list.
-/

namespace CovidDashboard

/-- One observation row of a raw fetched table: `(date, region, value)`. -/
structure Row where
  date : ℕ
  region : String
  value : ℚ
deriving DecidableEq, Repr

/-- A canonical series table: row index of dates, column index of regions,
and a cell accessor (`none` is a pandas `NaN` / absent cell). -/
structure CTable where
  dates : List ℕ
  regions : List String
  cell : ℕ → String → Option ℚ

/-- The error taxonomy of the pipeline.  `emptySource` is the
`FileNotFoundError("Can't get Zoe data")` raised on an empty raw table
(the spec's `EmptySourceError`); `missingRegion` is the pandas `KeyError`
raised when a required region column is absent (the spec's
`MissingRegionError`); `castError` is the `ValueError` numpy raises when
`np.int64` is applied to a column containing `NaN`; `missingColumns` is the
pandas `KeyError` raised by a column-list selection on a frame lacking
those columns. -/
inductive PipelineError where
  | emptySource : PipelineError
  | missingRegion : String → PipelineError
  | castError : PipelineError
  | missingColumns : List String → PipelineError
deriving DecidableEq, Repr

/-- The sorted, duplicate-free date index that `pandas.pivot_table` and
`groupby("date")` produce from a list of raw dates. -/
def sortDates (l : List ℕ) : List ℕ :=
  List.insertionSort (· ≤ ·) l.dedup

/-- Embedding of `df.pivot_table(index="date", columns="region")` as used in
`Zoe._process_data` and `Deaths._process_data`
(src/src/modules/dataframe_builder.py lines 40-43 and 146-147): the row
index becomes the sorted distinct dates, the columns the distinct regions,
and each cell the mean (pivot_table's default aggregator) of the values of
the matching raw rows, `NaN` when no row matches. -/
def pivotTable (rows : List Row) : CTable where
  dates := sortDates (rows.map Row.date)
  regions := (rows.map Row.region).dedup
  cell d r :=
    let matching := rows.filter (fun row => row.date = d ∧ row.region = r)
    if matching = [] then none
    else some ((matching.map Row.value).sum / (matching.length : ℚ))

/-- The table with no rows and no columns. -/
def emptyCTable : CTable where
  dates := []
  regions := []
  cell _ _ := none

/-- Projects the table out of a pipeline result, the empty table when the
pipeline step failed. -/
def tableOf (e : Except PipelineError CTable) : CTable :=
  match e with
  | .ok t => t
  | .error _ => emptyCTable

/-- Truncation toward zero, the conversion `np.int64` applies to a float. -/
def truncInt (q : ℚ) : ℤ :=
  if 0 ≤ q then ⌊q⌋ else ⌈q⌉

/-- Embedding of `.apply(np.int64)` on a pivoted table
(src/src/modules/dataframe_builder.py line 42): numpy raises a `ValueError`
if any cell of the table is `NaN`, otherwise every cell is truncated to an
integer. -/
def apply_int64 (t : CTable) : Except PipelineError CTable :=
  if t.dates.all (fun d => t.regions.all (fun r => (t.cell d r).isSome))
  then .ok { t with cell := fun d r => (t.cell d r).map (fun q => ((truncInt q : ℤ) : ℚ)) }
  else .error .castError

/-- Pandas addition of two possibly-`NaN` cells: `NaN` propagates. -/
def optAdd (a b : Option ℚ) : Option ℚ :=
  match a, b with
  | some x, some y => some (x + y)
  | _, _ => none

/-- Embedding of the column assignment `df[name] = col`: appends the column
when new, overwrites it in place when the name already exists. -/
def setCol (t : CTable) (name : String) (col : ℕ → Option ℚ) : CTable where
  dates := t.dates
  regions := if name ∈ t.regions then t.regions else t.regions ++ [name]
  cell d r := if r = name then col d else t.cell d r

/-- The assignment `df["Midlands"] = df["West Midlands"] + df["East Midlands"]`. -/
def addMidlands (t : CTable) : CTable :=
  setCol t "Midlands"
    (fun d => optAdd (t.cell d "West Midlands") (t.cell d "East Midlands"))

/-- The assignment
`df["North East and Yorkshire"] = df["North East"] + df["Yorkshire and The Humber"]`. -/
def addNortheastYorkshire (t1 : CTable) : CTable :=
  setCol t1 "North East and Yorkshire"
    (fun d => optAdd (t1.cell d "North East") (t1.cell d "Yorkshire and The Humber"))

/-- The two composite-column assignments shared by both revisions of the
Zoe normalizer (src/src/modules/dataframe_builder.py lines 47-53 and
src/covid_chart_generator.py lines 72-78).  Each column access `df[r]`
raises a `KeyError` (`missingRegion`) when `r` is not a column, in the
evaluation order of the Python expressions. -/
def addZoeComposites (t : CTable) : Except PipelineError CTable :=
  if "West Midlands" ∉ t.regions then .error (.missingRegion "West Midlands")
  else if "East Midlands" ∉ t.regions then .error (.missingRegion "East Midlands")
  else if "North East" ∉ (addMidlands t).regions then .error (.missingRegion "North East")
  else if "Yorkshire and The Humber" ∉ (addMidlands t).regions then
    .error (.missingRegion "Yorkshire and The Humber")
  else .ok (addNortheastYorkshire (addMidlands t))

/-- Embedding of `Zoe._process_data`
(src/src/modules/dataframe_builder.py lines 32-55): raise on an empty raw
table, otherwise prune to the date/region/incidence columns (implicit in the
`Row` shape), pivot region into columns, cast to integers, parse the dates
(identity on the already-parsed embedded dates), and add the two composite
columns.  No columns are dropped in this revision.  An error anywhere
propagates (Python exception). -/
def Zoe.process_data (raw : List Row) : Except PipelineError CTable :=
  if raw.isEmpty then .error .emptySource
  else
    match apply_int64 (pivotTable raw) with
    | .error e => .error e
    | .ok t => addZoeComposites t

/-- Embedding of `df.drop(toDrop, axis=1)`
(src/covid_chart_generator.py lines 67-68): a `KeyError` when one of the
labels is absent, otherwise the listed columns are removed. -/
def dropColumns (t : CTable) (toDrop : List String) : Except PipelineError CTable :=
  match toDrop.find? (fun r => !(t.regions.contains r)) with
  | some r => .error (.missingRegion r)
  | none => .ok
      { dates := t.dates
        regions := t.regions.filter (fun r => r ∉ toDrop)
        cell := fun d r => if r ∈ toDrop then none else t.cell d r }

/-- Embedding of the top-level `process_zoe`
(src/covid_chart_generator.py lines 56-80), the older revision: same as
`Zoe.process_data` except that after the pivot and integer cast the four
national columns `Northern Ireland`, `Scotland`, `UK` and `Wales` are
dropped. -/
def process_zoe (raw : List Row) : Except PipelineError CTable :=
  if raw.isEmpty then .error .emptySource
  else
    match apply_int64 (pivotTable raw) with
    | .error e => .error e
    | .ok t =>
      match dropColumns t ["Northern Ireland", "Scotland", "UK", "Wales"] with
      | .error e => .error e
      | .ok t2 => addZoeComposites t2

/-- The `pd.concat([big_df[big_df.region == r] for r in input_regions])`
row selection inside `Deaths._concatenate_regions`
(src/src/modules/dataframe_builder.py lines 156-162). -/
def Deaths.selected_rows (big_df : List Row) (input_regions : List String) : List Row :=
  (input_regions.map (fun reg => big_df.filter (fun row => row.region = reg))).flatten

/-- Embedding of `Deaths._concatenate_regions`
(src/src/modules/dataframe_builder.py lines 152-167): concatenate the rows
whose region is one of `input_regions`, `groupby("date").sum()` them (group
keys come out sorted and distinct, the sum ranges over whatever rows are
present), and relabel the result with `output_label`. -/
def Deaths.concatenate_regions (big_df : List Row) (input_regions : List String)
    (output_label : String) : List Row :=
  (sortDates ((Deaths.selected_rows big_df input_regions).map Row.date)).map
    (fun d => ⟨d, output_label,
      (((Deaths.selected_rows big_df input_regions).filter
          (fun row => row.date = d)).map Row.value).sum⟩)

/-- Embedding of `Deaths._process_data`
(src/src/modules/dataframe_builder.py lines 131-150): build the Midlands
and North East and Yorkshire composite rows, append them to the raw rows,
pivot region into columns, and drop the final 3 rows (`iloc[:-3]`) of the
sorted date index.  There is no empty-input check in this method. -/
def Deaths.process_data (raw : List Row) : CTable :=
  let midlands := Deaths.concatenate_regions raw ["East Midlands", "West Midlands"] "Midlands"
  let ney := Deaths.concatenate_regions raw ["North East", "Yorkshire and The Humber"]
    "North East and Yorkshire"
  let pivoted := pivotTable (raw ++ ney ++ midlands)
  let kept := pivoted.dates.take (pivoted.dates.length - 3)
  { dates := kept
    regions := pivoted.regions
    cell := fun d r => if d ∈ kept then pivoted.cell d r else none }

/-- One row of the raw healthcare table: per-metric values may be missing. -/
structure HealthRow where
  date : ℕ
  region : String
  admissions : Option ℚ
  inpatients : Option ℚ
  icu : Option ℚ
deriving DecidableEq, Repr

/-- Embedding of `Healthcare._process_data`
(src/src/modules/dataframe_builder.py lines 213-216): the method only
parses the date column (`pd.to_datetime`), the identity on the embedded
already-parsed dates, and returns the table.  There is no empty-input
check. -/
def Healthcare.process_data (raw : List HealthRow) : List HealthRow :=
  raw

/-- Embedding of `Healthcare.metric`
(src/src/modules/dataframe_builder.py lines 180-184):
`pivot_table(index="date", columns="region", values=metric)`; rows whose
selected value is `NaN` do not contribute. -/
def Healthcare.metric (rows : List HealthRow) (metric : String) : CTable :=
  pivotTable (rows.filterMap (fun row =>
    (if metric = "admissions" then row.admissions
     else if metric = "inpatients" then row.inpatients
     else if metric = "icu" then row.icu
     else none).map (fun v => ⟨row.date, row.region, v⟩)))

/-- One entry of the nested per-age-band structure of a raw cases row. -/
structure AgeEntry where
  age : String
  cases : ℚ
deriving DecidableEq, Repr

/-- One row of the raw cases-by-age table: the `metric` column holds the
nested list of per-age-band entries. -/
structure CasesRawRow where
  date : ℕ
  region : String
  metric : List AgeEntry
deriving DecidableEq, Repr

/-- One row of the expanded cases table: one `(date, region, age-band)`
observation. -/
structure CasesRow where
  date : ℕ
  region : String
  age : String
  cases : ℚ
deriving DecidableEq, Repr

/-- Embedding of `Cases._expand_from_explode`
(src/src/modules/dataframe_builder.py lines 276-287):
`explode("metric")` turns each raw row into one row per age entry and
`pd.json_normalize(exploded.metric)[["age", "cases"]]` pulls the two fields
out into columns.  On a zero-row input the exploded `metric` series is
empty, `json_normalize` returns a column-less frame, and the
`[["age", "cases"]]` selection raises a `KeyError` (`missingColumns`). -/
def Cases.expand_from_explode (raw : List CasesRawRow) : Except PipelineError (List CasesRow) :=
  if raw.isEmpty then .error (.missingColumns ["age", "cases"])
  else .ok ((raw.map (fun row => row.metric.map
    (fun e => ⟨row.date, row.region, e.age, e.cases⟩))).flatten)

/-- The national-total block of `Cases._process_data`
(src/src/modules/dataframe_builder.py lines 260-262):
`cases_dataframe.groupby(["date", "age"]).sum()` relabelled `England` —
one row per distinct `(date, age)` pair, summing the cases over every
region present at that pair. -/
def Cases.england_rows (rows : List CasesRow) : List CasesRow :=
  ((rows.map (fun row => (row.date, row.age))).dedup).map
    (fun p => ⟨p.1, "England", p.2,
      ((rows.filter (fun row => row.date = p.1 ∧ row.age = p.2)).map CasesRow.cases).sum⟩)

/-- The `pd.concat([in_df[in_df.region == r] for r in input_regions])` row
selection inside `Cases._concatenate_regions`
(src/src/modules/dataframe_builder.py lines 293-299). -/
def Cases.selected_rows (in_df : List CasesRow) (input_regions : List String) : List CasesRow :=
  (input_regions.map (fun reg => in_df.filter (fun row => row.region = reg))).flatten

/-- Embedding of `Cases._concatenate_regions`
(src/src/modules/dataframe_builder.py lines 289-307): concatenate the
constituent-region rows, `groupby(["date", "age"]).sum()` them — the
composite is created at the finest `(date, age-band)` granularity, over
whatever constituent rows are present — and relabel with `output_label`. -/
def Cases.concatenate_regions (in_df : List CasesRow) (input_regions : List String)
    (output_label : String) : List CasesRow :=
  (((Cases.selected_rows in_df input_regions).map (fun row => (row.date, row.age))).dedup).map
    (fun p => ⟨p.1, output_label, p.2,
      (((Cases.selected_rows in_df input_regions).filter
          (fun row => row.date = p.1 ∧ row.age = p.2)).map CasesRow.cases).sum⟩)

/-- The frame after the England block is appended
(src/src/modules/dataframe_builder.py line 263). -/
def Cases.with_england (rows : List CasesRow) : List CasesRow :=
  rows ++ Cases.england_rows rows

/-- Embedding of `Cases._process_data`
(src/src/modules/dataframe_builder.py lines 254-274): parse the dates
(identity on the embedded already-parsed dates), expand the nested age
structure, append the England rows, then append the North East and
Yorkshire and Midlands composites derived at `(date, age)` granularity
(`pd.concat([cases_dataframe, ney, midlands])`).  There is no empty-input
check; a zero-row input dies in the expansion step. -/
def Cases.process_data (raw : List CasesRawRow) : Except PipelineError (List CasesRow) :=
  match Cases.expand_from_explode raw with
  | .error e => .error e
  | .ok rows =>
    .ok (Cases.with_england rows ++
      Cases.concatenate_regions (Cases.with_england rows)
        ["North East", "Yorkshire and The Humber"] "North East and Yorkshire" ++
      Cases.concatenate_regions (Cases.with_england rows)
        ["East Midlands", "West Midlands"] "Midlands")

/-- Pandas `df1 + df2` on two date-by-region tables: the result aligns on
the union of the date indices and of the region columns, with
`NaN`-propagating cell addition. -/
def addTables (t1 t2 : CTable) : CTable where
  dates := sortDates (t1.dates ++ t2.dates)
  regions := (t1.regions ++ t2.regions).dedup
  cell d r := optAdd (t1.cell d r) (t2.cell d r)

/-- The age-band pivot
`rows[rows.age == age].pivot_table(index="date", columns="region").cases`
used by `Cases.metric`. -/
def Cases.pivot_age (rows : List CasesRow) (age : String) : CTable :=
  pivotTable ((rows.filter (fun row => row.age = age)).map
    (fun row => ⟨row.date, row.region, row.cases⟩))

/-- Embedding of `Cases.metric`
(src/src/modules/dataframe_builder.py lines 224-239): the `u60` and `o60`
views are the `00_59` and `60+` age-band pivots and `all_ages` is their
pandas sum.  The Python `choose_df[metric]` dict lookup raises a `KeyError`
for any other name; such calls never occur in the program, and the empty
table stands in for them here. -/
def Cases.metric (rows : List CasesRow) (metric : String) : CTable :=
  if metric = "u60" then Cases.pivot_age rows "00_59"
  else if metric = "o60" then Cases.pivot_age rows "60+"
  else if metric = "all_ages" then
    addTables (Cases.pivot_age rows "00_59") (Cases.pivot_age rows "60+")
  else emptyCTable

/-- One entry of the dict passed to `aggregate_dataframes`. -/
structure LabeledTable where
  label : String
  table : CTable

/-- The combined table: date rows, `(label, region)` columns. -/
structure AggTable where
  dates : List ℕ
  cols : List (String × String)
  cell : String → String → ℕ → Option ℚ

/-- Embedding of `aggregate_dataframes`
(src/src/modules/utils.py lines 14-19):
`pd.concat(datasets.values(), keys=datasets.keys(), join="outer", axis=1)`.
The row index is the sorted union of the input date indices; the column
axis is each label paired with that table's own region columns, label
blocks in insertion order; a cell under label `l` at a date absent from
`l`'s table is `NaN`. -/
def aggregate_dataframes (datasets : List LabeledTable) : AggTable where
  dates := sortDates ((datasets.map (fun lt => lt.table.dates)).flatten)
  cols := (datasets.map (fun lt => lt.table.regions.map (fun r => (lt.label, r)))).flatten
  cell l r d :=
    match datasets.find? (fun lt => lt.label == l) with
    | some lt => if r ∈ lt.table.regions ∧ d ∈ lt.table.dates then lt.table.cell d r else none
    | none => none

/-- Embedding of the block selection `aggregated[label]` (as in
`to_plot.swaplevel(axis=1)` usage): the columns under one label, with the
full date index retained. -/
def extractLabel (a : AggTable) (l : String) : CTable where
  dates := a.dates
  regions := (a.cols.filter (fun c => c.1 = l)).map Prod.snd
  cell d r := a.cell l r d

/-- Embedding of the trailing `col.rolling(window=w).mean()` applied to one
column (src/src/covid_chart_generator.py lines 362-370): with pandas'
default `min_periods = window`, position `i` holds the mean of positions
`[i-w+1, i]` when all of them are present, `NaN` when the window is not yet
full or contains a `NaN`. -/
def rolling_mean (window : ℕ) (col : List (Option ℚ)) : List (Option ℚ) :=
  (List.range col.length).map (fun i =>
    if window ≤ i + 1 then
      let win := (col.take (i + 1)).drop (i + 1 - window)
      if win.all Option.isSome then some ((win.filterMap id).sum / (window : ℚ))
      else none
    else none)

/-- Embedding of `to_plot.rolling(window=w).mean()` on the aggregated
table: the rolling mean is taken independently down each `(label, region)`
column, aligned on the date index. -/
def rolling_mean_table (window : ℕ) (t : AggTable) : AggTable where
  dates := t.dates
  cols := t.cols
  cell l r d :=
    if d ∈ t.dates then
      (rolling_mean window (t.dates.map (t.cell l r))).getD (t.dates.indexOf d) none
    else none

/-- Embedding of the region-selection hack in `make_default_dataframes`
(src/src/modules/dataframe_builder.py lines 321-326):
`regions.insert(0, regions.pop(regions.index("England")))`. -/
def make_regions_to_use (cols : List String) : List String :=
  cols.getD (cols.indexOf "England") "England" :: cols.eraseIdx (cols.indexOf "England")

/-! ### Concrete inputs used by counterexamples and witnesses -/

/-- A raw deaths table in which `West Midlands` has no row at date 0 while
`East Midlands` does (both fully present on dates 1-4). -/
def rawDeathsPartial : List Row :=
  [⟨0, "East Midlands", 5⟩, ⟨1, "East Midlands", 6⟩, ⟨2, "East Midlands", 7⟩,
   ⟨3, "East Midlands", 8⟩, ⟨4, "East Midlands", 9⟩,
   ⟨1, "West Midlands", 10⟩, ⟨2, "West Midlands", 11⟩, ⟨3, "West Midlands", 12⟩,
   ⟨4, "West Midlands", 13⟩]

/-- Ten consecutive daily rows for one region. -/
def rawDeathsTen : List Row :=
  [⟨0, "London", 1⟩, ⟨1, "London", 2⟩, ⟨2, "London", 3⟩, ⟨3, "London", 4⟩,
   ⟨4, "London", 5⟩, ⟨5, "London", 6⟩, ⟨6, "London", 7⟩, ⟨7, "London", 8⟩,
   ⟨8, "London", 9⟩, ⟨9, "London", 10⟩]

/-- A raw table with only an `East Midlands` row: the `West Midlands`
constituent is entirely absent. -/
def rawOnlyEastMidlands : List Row :=
  [⟨0, "East Midlands", 5⟩]

/-- A raw symptom-incidence table containing a national `UK` row alongside
the four composite constituents. -/
def rawZoeUK : List Row :=
  [⟨0, "East Midlands", 1⟩, ⟨0, "West Midlands", 2⟩, ⟨0, "North East", 3⟩,
   ⟨0, "Yorkshire and The Humber", 4⟩, ⟨0, "UK", 5⟩]

/-- A raw table with only a `West Midlands` row: the `East Midlands`
constituent is entirely absent. -/
def rawOnlyWestMidlands : List Row :=
  [⟨0, "West Midlands", 1⟩]

/-- An expanded cases table with only an `East Midlands` row. -/
def casesOnlyEastMidlands : List CasesRow :=
  [⟨0, "East Midlands", "00_59", 5⟩]

/-- A one-row raw cases-by-age table. -/
def casesRawOne : List CasesRawRow :=
  [⟨0, "London", [⟨"00_59", 1⟩]⟩]

/-! ### Helper lemmas -/

theorem sortDates_sorted_le (l : List ℕ) : (sortDates l).Sorted (· ≤ ·) :=
  List.sorted_insertionSort _ _

theorem sortDates_nodup (l : List ℕ) : (sortDates l).Nodup :=
  ((List.perm_insertionSort _ _).nodup_iff).2 l.nodup_dedup

theorem sortDates_sorted_lt (l : List ℕ) : (sortDates l).Sorted (· < ·) :=
  (sortDates_sorted_le l).lt_of_le (sortDates_nodup l)

theorem mem_sortDates {l : List ℕ} {d : ℕ} : d ∈ sortDates l ↔ d ∈ l :=
  ((List.perm_insertionSort _ _).mem_iff).trans (List.mem_dedup)

theorem sortDates_congr {l₁ l₂ : List ℕ} (h : ∀ a, a ∈ l₁ ↔ a ∈ l₂) :
    sortDates l₁ = sortDates l₂ := by
  refine List.eq_of_perm_of_sorted ?_ (sortDates_sorted_le l₁) (sortDates_sorted_le l₂)
  refine (List.perm_ext_iff_of_nodup (sortDates_nodup l₁) (sortDates_nodup l₂)).2 ?_
  intro a
  rw [mem_sortDates, mem_sortDates]
  exact h a

theorem sortDates_eq_of_sorted {l : List ℕ} (h : l.Sorted (· < ·)) : sortDates l = l := by
  have hd : l.dedup = l := h.nodup.dedup
  refine List.eq_of_perm_of_sorted ?_ (sortDates_sorted_le l) (h.le_of_lt)
  unfold sortDates
  rw [hd]
  exact List.perm_insertionSort _ _

theorem filter_eq_of_nodup {α : Type} [DecidableEq α] {l : List α} (h : l.Nodup) (d : α) :
    l.filter (fun x => x = d) = if d ∈ l then [d] else [] := by
  induction l with
  | nil => simp
  | cons a l ih =>
    rcases List.nodup_cons.1 h with ⟨ha, hl⟩
    by_cases had : a = d
    · subst had
      simp [List.filter_cons, ih hl, ha]
    · simp [List.filter_cons, had, ih hl, Ne.symm had]

/-- Dates produced by `Deaths._concatenate_regions` come from the input rows. -/
theorem concatenate_regions_dates_subset {raw : List Row} {regs : List String}
    {label : String} {a : ℕ}
    (h : a ∈ (Deaths.concatenate_regions raw regs label).map Row.date) :
    a ∈ raw.map Row.date := by
  unfold Deaths.concatenate_regions Deaths.selected_rows at h
  simp only [List.map_map, List.mem_map, Function.comp] at h
  obtain ⟨d, hd, rfl⟩ := h
  rw [mem_sortDates] at hd
  simp only [List.mem_map, List.mem_flatten, List.mem_filter] at hd
  obtain ⟨row, ⟨lsel, hlsel, hrow⟩, rfl⟩ := hd
  obtain ⟨reg, _, rfl⟩ := hlsel
  rcases List.mem_filter.1 hrow with ⟨hraw, _⟩
  exact List.mem_map.2 ⟨row, hraw, rfl⟩

theorem deaths_pivot_dates (raw : List Row) :
    (pivotTable (raw ++
        Deaths.concatenate_regions raw ["North East", "Yorkshire and The Humber"]
          "North East and Yorkshire" ++
        Deaths.concatenate_regions raw ["East Midlands", "West Midlands"] "Midlands")).dates =
      sortDates (raw.map Row.date) := by
  show sortDates _ = sortDates _
  apply sortDates_congr
  intro a
  constructor
  · intro h
    simp only [List.map_append, List.mem_append] at h
    rcases h with (h | h) | h
    · exact h
    · exact concatenate_regions_dates_subset h
    · exact concatenate_regions_dates_subset h
  · intro h
    simp only [List.map_append, List.mem_append]
    exact Or.inl (Or.inl h)

/-! ### C2: deaths truncation drops the 3 latest distinct dates -/

/-- C2.  For every non-empty raw deaths input, the output date index of the
deaths normalizer is the sorted distinct dates of the input with the last
3 positions removed (`iloc[:-3]`), and every omitted date is later than
every retained date: the truncation removes exactly the latest dates, by
position in sorted order.  With 10 consecutive daily rows this leaves
exactly the earliest 7 dates (see the witness). -/
theorem deaths_truncation (raw : List Row) (_hraw : raw ≠ []) :
    (Deaths.process_data raw).dates =
      (sortDates (raw.map Row.date)).take ((sortDates (raw.map Row.date)).length - 3) ∧
    ∀ a ∈ (Deaths.process_data raw).dates, ∀ b ∈ sortDates (raw.map Row.date),
      b ∉ (Deaths.process_data raw).dates → a < b := by
  have hdates : (Deaths.process_data raw).dates =
      (sortDates (raw.map Row.date)).take ((sortDates (raw.map Row.date)).length - 3) := by
    show (pivotTable _).dates.take ((pivotTable _).dates.length - 3) = _
    rw [deaths_pivot_dates raw]
  refine ⟨hdates, ?_⟩
  intro a ha b hb hbk
  rw [hdates] at ha hbk
  set ds := sortDates (raw.map Row.date) with hds
  set k := ds.length - 3 with hk
  have hsplit : ds.take k ++ ds.drop k = ds := List.take_append_drop k ds
  have hsorted : ds.Pairwise (· < ·) := sortDates_sorted_lt _
  have hbdrop : b ∈ ds.drop k := by
    rcases (List.mem_append.1 (by rw [hsplit]; exact hb)) with h | h
    · exact absurd h hbk
    · exact h
  have := (List.pairwise_append.1 (by rw [hsplit]; exact hsorted)).2.2
  exact this a ha b hbdrop

/-- C2 witness: ten consecutive daily rows keep exactly the earliest 7
dates. -/
theorem deaths_truncation_witness :
    rawDeathsTen ≠ [] ∧ (Deaths.process_data rawDeathsTen).dates = [0, 1, 2, 3, 4, 5, 6] := by
  have h := deaths_truncation rawDeathsTen (by simp [rawDeathsTen])
  refine ⟨by simp [rawDeathsTen], h.1.trans ?_⟩
  simp [rawDeathsTen, sortDates, List.insertionSort, List.orderedInsert, List.dedup]

/-! ### C10: canonical outputs have a sorted, duplicate-free date index -/

/-- Regions are preserved upward by `addZoeComposites` and only the two
composite names are added; the dates are unchanged.  Packaged as the facts
needed about successful runs. -/
theorem addZoeComposites_ok {t u : CTable} (h : addZoeComposites t = .ok u) :
    u.dates = t.dates ∧
    (∀ r, r ∈ t.regions → r ∈ u.regions) ∧
    (∀ r, r ∈ u.regions →
      r ∈ t.regions ∨ r = "Midlands" ∨ r = "North East and Yorkshire") := by
  unfold addZoeComposites at h
  split at h
  · exact absurd h (by simp)
  · split at h
    · exact absurd h (by simp)
    · split at h
      · exact absurd h (by simp)
      · split at h
        · exact absurd h (by simp)
        · have hu := Except.ok.inj h
          subst hu
          refine ⟨rfl, ?_, ?_⟩
          · intro r hr
            simp only [addNortheastYorkshire, addMidlands, setCol]
            split <;> split <;> simp_all
          · intro r hr
            simp only [addNortheastYorkshire, addMidlands, setCol] at hr
            split at hr <;> split at hr <;> simp_all <;> tauto

theorem apply_int64_ok {t0 t : CTable} (h : apply_int64 t0 = .ok t) :
    t.dates = t0.dates ∧ t.regions = t0.regions := by
  unfold apply_int64 at h
  split at h
  · have ht := Except.ok.inj h
    subst ht
    exact ⟨rfl, rfl⟩
  · exact absurd h (by simp)

theorem addZoeComposites_ok_eq {t u : CTable} (h : addZoeComposites t = .ok u) :
    u = addNortheastYorkshire (addMidlands t) := by
  unfold addZoeComposites at h
  split at h
  · exact absurd h (by simp)
  · split at h
    · exact absurd h (by simp)
    · split at h
      · exact absurd h (by simp)
      · split at h
        · exact absurd h (by simp)
        · exact (Except.ok.inj h).symm

/-- C1 counterexample.  In the deaths normalizer, at a date (here 0) where
the `West Midlands` constituent is missing but `East Midlands` is present,
the `Midlands` composite is NOT missing: it equals the single present
constituent's value (5), contradicting the claim that a missing constituent
makes the composite missing. -/
theorem composite_missing_constituent_cex :
    (Deaths.process_data rawDeathsPartial).cell 0 "Midlands" = some 5 ∧
    (Deaths.process_data rawDeathsPartial).cell 0 "West Midlands" = none ∧
    0 ∈ (Deaths.process_data rawDeathsPartial).dates ∧
    "West Midlands" ∈ (Deaths.process_data rawDeathsPartial).regions := by
  refine ⟨?_, ?_, by decide, by decide⟩ <;>
    simp [Deaths.process_data, Deaths.concatenate_regions, Deaths.selected_rows,
      pivotTable, sortDates, rawDeathsPartial, List.insertionSort, List.orderedInsert,
      List.dedup]

/-- C1 amended.  In the Zoe normalizer, both composite columns —
`Midlands` and `North East and Yorkshire` — are the `NaN`-propagating
pandas sum of their two constituent columns of the output table, exactly
as the claim states (both constituents present: their sum; either missing:
missing).  In the deaths normalizer and in the cases-by-age normalizer,
the composite row built by `_concatenate_regions` at a group key (a date
for deaths, a `(date, age-band)` pair for cases) is instead the groupby
sum over whichever constituent rows are present at that key: it exists as
soon as at least one constituent row exists, and where only one
constituent is present it equals that single constituent's value rather
than being missing. -/
theorem composite_sum_semantics :
    (∀ (raw : List Row) (d : ℕ),
      (tableOf (Zoe.process_data raw)).cell d "Midlands" =
        optAdd ((tableOf (Zoe.process_data raw)).cell d "West Midlands")
          ((tableOf (Zoe.process_data raw)).cell d "East Midlands") ∧
      (tableOf (Zoe.process_data raw)).cell d "North East and Yorkshire" =
        optAdd ((tableOf (Zoe.process_data raw)).cell d "North East")
          ((tableOf (Zoe.process_data raw)).cell d "Yorkshire and The Humber")) ∧
    (∀ (big_df : List Row) (regs : List String) (label : String) (d : ℕ),
      (Deaths.concatenate_regions big_df regs label).filter (fun row => row.date = d) =
        if d ∈ (Deaths.selected_rows big_df regs).map Row.date
        then [⟨d, label,
          (((Deaths.selected_rows big_df regs).filter
              (fun row => row.date = d)).map Row.value).sum⟩]
        else []) ∧
    (∀ (in_df : List CasesRow) (regs : List String) (label : String) (d : ℕ) (a : String),
      (Cases.concatenate_regions in_df regs label).filter
          (fun row => row.date = d ∧ row.age = a) =
        if (d, a) ∈ (Cases.selected_rows in_df regs).map (fun row => (row.date, row.age))
        then [⟨d, label, a,
          (((Cases.selected_rows in_df regs).filter
              (fun row => row.date = d ∧ row.age = a)).map CasesRow.cases).sum⟩]
        else []) := by
  refine ⟨?_, ?_, ?_⟩
  · intro raw d
    unfold Zoe.process_data
    split
    · constructor <;> simp [tableOf, emptyCTable, optAdd]
    · cases h1 : apply_int64 (pivotTable raw) with
      | error e => constructor <;> simp [tableOf, emptyCTable, optAdd]
      | ok t =>
        cases h2 : addZoeComposites t with
        | error e =>
          show ((tableOf (addZoeComposites t)).cell d "Midlands" =
            optAdd ((tableOf (addZoeComposites t)).cell d "West Midlands")
              ((tableOf (addZoeComposites t)).cell d "East Midlands")) ∧
            ((tableOf (addZoeComposites t)).cell d "North East and Yorkshire" =
              optAdd ((tableOf (addZoeComposites t)).cell d "North East")
                ((tableOf (addZoeComposites t)).cell d "Yorkshire and The Humber"))
          rw [h2]
          constructor <;> simp [tableOf, emptyCTable, optAdd]
        | ok u =>
          show ((tableOf (addZoeComposites t)).cell d "Midlands" =
            optAdd ((tableOf (addZoeComposites t)).cell d "West Midlands")
              ((tableOf (addZoeComposites t)).cell d "East Midlands")) ∧
            ((tableOf (addZoeComposites t)).cell d "North East and Yorkshire" =
              optAdd ((tableOf (addZoeComposites t)).cell d "North East")
                ((tableOf (addZoeComposites t)).cell d "Yorkshire and The Humber"))
          rw [h2, addZoeComposites_ok_eq h2]
          constructor <;> simp [tableOf, addNortheastYorkshire, addMidlands, setCol]
  · intro big_df regs label d
    unfold Deaths.concatenate_regions
    rw [List.filter_map]
    by_cases hd : d ∈ (Deaths.selected_rows big_df regs).map Row.date
    · rw [show ((fun row => decide (row.date = d)) ∘ fun d2 =>
          (⟨d2, label, (((Deaths.selected_rows big_df regs).filter
            (fun row => row.date = d2)).map Row.value).sum⟩ : Row)) =
          fun d2 => decide (d2 = d) from rfl]
      rw [show (fun (x : ℕ) => decide (x = d)) = fun x => x = d from rfl,
        filter_eq_of_nodup (sortDates_nodup _) d]
      rw [if_pos (mem_sortDates.2 hd), if_pos hd]
      simp
    · rw [show ((fun row => decide (row.date = d)) ∘ fun d2 =>
          (⟨d2, label, (((Deaths.selected_rows big_df regs).filter
            (fun row => row.date = d2)).map Row.value).sum⟩ : Row)) =
          fun d2 => decide (d2 = d) from rfl]
      rw [show (fun (x : ℕ) => decide (x = d)) = fun x => x = d from rfl,
        filter_eq_of_nodup (sortDates_nodup _) d]
      rw [if_neg (fun hc => hd (mem_sortDates.1 hc)), if_neg hd]
      simp
  · intro in_df regs label d a
    unfold Cases.concatenate_regions
    rw [List.filter_map]
    rw [show ((fun row => decide (row.date = d ∧ row.age = a)) ∘ fun (p : ℕ × String) =>
        (⟨p.1, label, p.2, (((Cases.selected_rows in_df regs).filter
          (fun row => row.date = p.1 ∧ row.age = p.2)).map CasesRow.cases).sum⟩ : CasesRow)) =
        fun (p : ℕ × String) => decide (p.1 = d ∧ p.2 = a) from rfl]
    have hpt : ∀ p ∈ ((Cases.selected_rows in_df regs).map
        (fun row => (row.date, row.age))).dedup,
        (decide (p.1 = d ∧ p.2 = a)) = decide (p = (d, a)) := by
      intro p _
      rw [decide_eq_decide]
      constructor
      · rintro ⟨h1, h2⟩
        cases p
        simp_all
      · rintro rfl
        exact ⟨rfl, rfl⟩
    rw [List.filter_congr hpt]
    rw [show (fun (p : ℕ × String) => decide (p = (d, a))) = fun p => p = (d, a) from rfl,
      filter_eq_of_nodup (List.nodup_dedup _) (d, a)]
    by_cases hd : (d, a) ∈ (Cases.selected_rows in_df regs).map (fun row => (row.date, row.age))
    · rw [if_pos (List.mem_dedup.2 hd), if_pos hd]
      simp
    · rw [if_neg (fun hc => hd (List.mem_dedup.1 hc)), if_neg hd]
      simp

/-! ### C3: empty-source handling -/

theorem apply_int64_ne_emptySource (t : CTable) :
    apply_int64 t ≠ .error .emptySource := by
  unfold apply_int64
  split <;> simp

theorem addZoeComposites_ne_emptySource (t : CTable) :
    addZoeComposites t ≠ .error .emptySource := by
  unfold addZoeComposites
  split
  · simp
  · split
    · simp
    · split
      · simp
      · split <;> simp

/-- C3 counterexample.  Not every normalizer raises the empty-source error
on a zero-row input: the deaths and healthcare normalizers have no
empty-input guard and return an (empty) output table instead of failing,
and the cases-by-age normalizer fails in its metric-expansion step with a
pandas `KeyError` on the `age`/`cases` columns, not with the empty-source
error. -/
theorem empty_source_cex :
    (Deaths.process_data []).dates = [] ∧
    (Deaths.process_data []).regions = [] ∧
    Healthcare.process_data ([] : List HealthRow) = [] ∧
    (Healthcare.metric [] "admissions").dates = [] ∧
    Cases.process_data [] = .error (.missingColumns ["age", "cases"]) := by
  refine ⟨by decide, by decide, rfl, by decide, rfl⟩

/-- C3 amended.  Only the symptom-incidence (Zoe) normalizer raises the
empty-source error, and it does so exactly on zero-row input.  The deaths
and healthcare normalizers perform no empty-input check; on an empty input
they produce an empty table.  The cases-by-age normalizer also has no
empty-input check: it never raises the empty-source error and on a
zero-row input fails in the metric-expansion step with a pandas `KeyError`
on the `age`/`cases` columns. -/
theorem empty_source_only_zoe :
    (∀ raw : List Row, Zoe.process_data raw = .error .emptySource ↔ raw = []) ∧
    (∀ raw : List CasesRawRow,
      Cases.process_data raw = .error (.missingColumns ["age", "cases"]) ↔ raw = []) ∧
    (∀ raw : List CasesRawRow, Cases.process_data raw ≠ .error .emptySource) ∧
    (∀ raw : List HealthRow, Healthcare.process_data raw = raw) ∧
    (Deaths.process_data []).dates = [] := by
  refine ⟨?_, ?_, ?_, fun _ => rfl, by decide⟩
  case refine_2 =>
    intro raw
    cases raw with
    | nil => simp [Cases.process_data, Cases.expand_from_explode]
    | cons x xs => simp [Cases.process_data, Cases.expand_from_explode]
  case refine_3 =>
    intro raw
    cases raw with
    | nil => simp [Cases.process_data, Cases.expand_from_explode]
    | cons x xs => simp [Cases.process_data, Cases.expand_from_explode]
  intro raw
  constructor
  · intro h
    by_contra hne
    have hE : raw.isEmpty = false := by
      cases raw
      · exact absurd rfl hne
      · rfl
    unfold Zoe.process_data at h
    rw [hE] at h
    simp only [Bool.false_eq_true, if_false] at h
    cases h1 : apply_int64 (pivotTable raw) with
    | error e =>
      rw [h1] at h
      exact apply_int64_ne_emptySource (pivotTable raw) (h1.trans (congrArg Except.error
        (Except.error.inj h)))
    | ok t =>
      rw [h1] at h
      exact addZoeComposites_ne_emptySource t h
  · rintro rfl
    simp [Zoe.process_data]

/-- C3 witness: concrete instances of the amended claim — the Zoe
normalizer raises the empty-source error on the empty input, the
cases-by-age normalizer fails with the column `KeyError` there, and on a
one-row input it does not raise the empty-source error. -/
theorem empty_source_only_zoe_witness :
    Zoe.process_data ([] : List Row) = .error .emptySource ∧
    Cases.process_data ([] : List CasesRawRow) = .error (.missingColumns ["age", "cases"]) ∧
    Cases.process_data casesRawOne ≠ .error .emptySource := by
  exact ⟨(empty_source_only_zoe.1 []).2 rfl, (empty_source_only_zoe.2.1 []).2 rfl,
    empty_source_only_zoe.2.2.1 casesRawOne⟩

/-! ### C4: missing constituent regions -/

/-- C4 counterexample.  A deaths composite derivation with the
`West Midlands` constituent entirely absent from the input does not fail:
`_concatenate_regions` silently builds the `Midlands` composite from the
single present constituent. -/
theorem missing_region_cex :
    "West Midlands" ∉ rawOnlyEastMidlands.map Row.region ∧
    Deaths.concatenate_regions rawOnlyEastMidlands ["East Midlands", "West Midlands"]
      "Midlands" = [⟨0, "Midlands", 5⟩] := by
  refine ⟨by decide, ?_⟩
  simp [Deaths.concatenate_regions, Deaths.selected_rows, rawOnlyEastMidlands,
    sortDates, List.insertionSort, List.orderedInsert, List.dedup]

/-- A region other than `Midlands` is a column of `addMidlands t` exactly
when it is a column of `t`. -/
theorem mem_addMidlands_regions {t : CTable} {r : String} (hr : r ≠ "Midlands") :
    r ∈ (addMidlands t).regions ↔ r ∈ t.regions := by
  simp only [addMidlands, setCol]
  split
  · exact Iff.rfl
  · simp [hr]

/-- The outcome of the two Zoe composite assignments at every combination
of present and absent constituent columns: the first absent constituent in
Python's evaluation order (`West Midlands`, `East Midlands`, `North East`,
`Yorkshire and The Humber`) names the `KeyError`, and the assignments
succeed when all four are present. -/
theorem addZoeComposites_missing (t : CTable) :
    ("West Midlands" ∉ t.regions →
      addZoeComposites t = .error (.missingRegion "West Midlands")) ∧
    ("West Midlands" ∈ t.regions → "East Midlands" ∉ t.regions →
      addZoeComposites t = .error (.missingRegion "East Midlands")) ∧
    ("West Midlands" ∈ t.regions → "East Midlands" ∈ t.regions →
      "North East" ∉ t.regions →
      addZoeComposites t = .error (.missingRegion "North East")) ∧
    ("West Midlands" ∈ t.regions → "East Midlands" ∈ t.regions →
      "North East" ∈ t.regions → "Yorkshire and The Humber" ∉ t.regions →
      addZoeComposites t = .error (.missingRegion "Yorkshire and The Humber")) ∧
    ("West Midlands" ∈ t.regions → "East Midlands" ∈ t.regions →
      "North East" ∈ t.regions → "Yorkshire and The Humber" ∈ t.regions →
      (addZoeComposites t).isOk = true) := by
  refine ⟨?_, ?_, ?_, ?_, ?_⟩
  · intro hwm
    unfold addZoeComposites
    rw [if_pos hwm]
  · intro hwm hem
    unfold addZoeComposites
    rw [if_neg (not_not_intro hwm), if_pos hem]
  · intro hwm hem hne
    unfold addZoeComposites
    rw [if_neg (not_not_intro hwm), if_neg (not_not_intro hem),
      if_pos (fun hc => hne ((mem_addMidlands_regions (by decide)).1 hc))]
  · intro hwm hem hne hyh
    unfold addZoeComposites
    rw [if_neg (not_not_intro hwm), if_neg (not_not_intro hem),
      if_neg (not_not_intro ((mem_addMidlands_regions (by decide)).2 hne)),
      if_pos (fun hc => hyh ((mem_addMidlands_regions (by decide)).1 hc))]
  · intro hwm hem hne hyh
    unfold addZoeComposites
    rw [if_neg (not_not_intro hwm), if_neg (not_not_intro hem),
      if_neg (not_not_intro ((mem_addMidlands_regions (by decide)).2 hne)),
      if_neg (not_not_intro ((mem_addMidlands_regions (by decide)).2 hyh))]
    rfl

/-- C4 amended.  Only the Zoe (column-lookup) composite derivation fails
when a constituent region is absent: with a well-typed pivot (integer cast
succeeded), the normalizer fails with a `missingRegion` error naming the
first absent constituent in Python's evaluation order — `West Midlands`,
`East Midlands`, `North East`, `Yorkshire and The Humber` — and succeeds
when all four are present.  The deaths and cases-by-age (row-filter)
derivations never fail: a constituent with no rows contributes nothing,
and the composite is built from the remaining constituents. -/
theorem missing_region_semantics :
    (∀ raw : List Row, raw ≠ [] → (apply_int64 (pivotTable raw)).isOk = true →
      ("West Midlands" ∉ (pivotTable raw).regions →
        Zoe.process_data raw = .error (.missingRegion "West Midlands")) ∧
      ("West Midlands" ∈ (pivotTable raw).regions →
        "East Midlands" ∉ (pivotTable raw).regions →
        Zoe.process_data raw = .error (.missingRegion "East Midlands")) ∧
      ("West Midlands" ∈ (pivotTable raw).regions →
        "East Midlands" ∈ (pivotTable raw).regions →
        "North East" ∉ (pivotTable raw).regions →
        Zoe.process_data raw = .error (.missingRegion "North East")) ∧
      ("West Midlands" ∈ (pivotTable raw).regions →
        "East Midlands" ∈ (pivotTable raw).regions →
        "North East" ∈ (pivotTable raw).regions →
        "Yorkshire and The Humber" ∉ (pivotTable raw).regions →
        Zoe.process_data raw = .error (.missingRegion "Yorkshire and The Humber")) ∧
      ("West Midlands" ∈ (pivotTable raw).regions →
        "East Midlands" ∈ (pivotTable raw).regions →
        "North East" ∈ (pivotTable raw).regions →
        "Yorkshire and The Humber" ∈ (pivotTable raw).regions →
        (Zoe.process_data raw).isOk = true)) ∧
    (∀ (big_df : List Row) (a b label : String), (∀ row ∈ big_df, row.region ≠ b) →
      Deaths.concatenate_regions big_df [a, b] label =
        Deaths.concatenate_regions big_df [a] label) ∧
    (∀ (in_df : List CasesRow) (a b label : String), (∀ row ∈ in_df, row.region ≠ b) →
      Cases.concatenate_regions in_df [a, b] label =
        Cases.concatenate_regions in_df [a] label) := by
  refine ⟨?_, ?_, ?_⟩
  · intro raw hne hok
    have hE : raw.isEmpty = false := by
      cases raw
      · exact absurd rfl hne
      · rfl
    cases h1 : apply_int64 (pivotTable raw) with
    | error e => rw [h1] at hok; exact absurd hok (by simp [Except.isOk, Except.toBool])
    | ok t =>
      have hreg : t.regions = (pivotTable raw).regions := (apply_int64_ok h1).2
      have hrepr : Zoe.process_data raw = addZoeComposites t := by
        unfold Zoe.process_data
        rw [hE]
        simp only [Bool.false_eq_true, if_false]
        rw [h1]
      rw [← hreg]
      rw [hrepr]
      exact addZoeComposites_missing t
  · intro big_df a b label hb
    have hfb : big_df.filter (fun row => row.region = b) = [] := by
      rw [List.filter_eq_nil_iff]
      intro row hrow
      simpa using hb row hrow
    unfold Deaths.concatenate_regions Deaths.selected_rows
    rw [List.map_cons, List.map_cons, List.map_nil, List.map_cons, List.map_nil, hfb]
    simp
  · intro in_df a b label hb
    have hfb : in_df.filter (fun row => row.region = b) = [] := by
      rw [List.filter_eq_nil_iff]
      intro row hrow
      simpa using hb row hrow
    unfold Cases.concatenate_regions Cases.selected_rows
    rw [List.map_cons, List.map_cons, List.map_nil, List.map_cons, List.map_nil, hfb]
    simp

/-- C4 witness: concrete instances of the amended claim.  The Zoe
normalizer fails naming `West Midlands` when that column is absent and
naming `East Midlands` when only `West Midlands` is present, and succeeds
when all four constituents are present; the deaths and cases-by-age
derivations on constituent-free inputs just ignore the absent
constituent. -/
theorem missing_region_witness :
    Zoe.process_data rawOnlyEastMidlands = .error (.missingRegion "West Midlands") ∧
    Zoe.process_data rawOnlyWestMidlands = .error (.missingRegion "East Midlands") ∧
    (Zoe.process_data rawZoeUK).isOk = true ∧
    Deaths.concatenate_regions rawOnlyEastMidlands ["East Midlands", "West Midlands"]
      "Midlands" = Deaths.concatenate_regions rawOnlyEastMidlands ["East Midlands"]
      "Midlands" ∧
    Cases.concatenate_regions casesOnlyEastMidlands ["East Midlands", "West Midlands"]
      "Midlands" = Cases.concatenate_regions casesOnlyEastMidlands ["East Midlands"]
      "Midlands" := by
  refine ⟨?_, ?_, ?_, ?_, ?_⟩
  · exact (missing_region_semantics.1 rawOnlyEastMidlands (by decide) (by decide)).1
      (by decide)
  · exact (missing_region_semantics.1 rawOnlyWestMidlands (by decide) (by decide)).2.1
      (by decide) (by decide)
  · exact (missing_region_semantics.1 rawZoeUK (by decide) (by decide)).2.2.2.2
      (by decide) (by decide) (by decide) (by decide)
  · exact missing_region_semantics.2.1 rawOnlyEastMidlands "East Midlands" "West Midlands"
      "Midlands" (by decide)
  · exact missing_region_semantics.2.2 casesOnlyEastMidlands "East Midlands" "West Midlands"
      "Midlands" (by decide)

/-! ### C5 and C6: the dataset aggregator -/

/-- With pairwise-distinct labels (guaranteed by the Python dict the
aggregator is called with), looking a label up in the dataset list finds
exactly its entry. -/
theorem find?_label_eq {datasets : List LabeledTable}
    (hnd : (datasets.map LabeledTable.label).Nodup) {lt : LabeledTable}
    (hmem : lt ∈ datasets) :
    datasets.find? (fun x => x.label == lt.label) = some lt := by
  induction datasets with
  | nil => cases hmem
  | cons a ds ih =>
    rw [List.map_cons, List.nodup_cons] at hnd
    rcases List.mem_cons.1 hmem with rfl | hmem2
    · simp [List.find?_cons_of_pos]
    · have hne : (a.label == lt.label) = false := by
        have : lt.label ∈ ds.map LabeledTable.label := List.mem_map.2 ⟨lt, hmem2, rfl⟩
        simp only [beq_eq_false_iff_ne, ne_eq]
        intro he
        exact hnd.1 (he ▸ this)
      rw [List.find?_cons_of_neg _ (by simp [hne]), ih hnd.2 hmem2]

/-- C5.  For any family of labelled canonical tables (with distinct
labels), the combined table's date index is exactly the union of the input
date indices; a cell of a label's block at a date absent from that label's
table is missing; and the column axis is the concatenation of each label's
own region columns, label blocks in insertion order. -/
theorem aggregate_outer_join (datasets : List LabeledTable)
    (hnd : (datasets.map LabeledTable.label).Nodup) :
    (∀ d : ℕ, d ∈ (aggregate_dataframes datasets).dates ↔
      ∃ lt ∈ datasets, d ∈ lt.table.dates) ∧
    (∀ lt ∈ datasets, ∀ (r : String) (d : ℕ), d ∉ lt.table.dates →
      (aggregate_dataframes datasets).cell lt.label r d = none) ∧
    (aggregate_dataframes datasets).cols =
      (datasets.map (fun lt => lt.table.regions.map (fun r => (lt.label, r)))).flatten := by
  refine ⟨?_, ?_, rfl⟩
  · intro d
    show d ∈ sortDates _ ↔ _
    rw [mem_sortDates]
    simp [List.mem_flatten]
  · intro lt hmem r d hd
    show (match datasets.find? (fun x => x.label == lt.label) with
      | some lt => if r ∈ lt.table.regions ∧ d ∈ lt.table.dates then lt.table.cell d r else none
      | none => none) = none
    rw [find?_label_eq hnd hmem]
    simp [hd]

/-- The tables used by the C5 witness. -/
def tableA : CTable := ⟨[0, 1], ["x"], fun d _ => some (d : ℚ)⟩

def tableB : CTable := ⟨[1, 2], ["y"], fun d _ => some (d : ℚ)⟩

def datasetsAB : List LabeledTable := [⟨"A", tableA⟩, ⟨"B", tableB⟩]

/-- C5 witness: on two concrete tables with overlapping date indices, the
union property, the missing-cell property and the column-block layout all
hold. -/
theorem aggregate_outer_join_witness :
    (2 ∈ (aggregate_dataframes datasetsAB).dates ↔ ∃ lt ∈ datasetsAB, 2 ∈ lt.table.dates) ∧
    (aggregate_dataframes datasetsAB).cell "A" "x" 2 = none ∧
    (aggregate_dataframes datasetsAB).cols = [("A", "x"), ("B", "y")] := by
  have h := aggregate_outer_join datasetsAB (by decide)
  refine ⟨h.1 2, ?_, h.2.2.trans (by decide)⟩
  exact h.2.1 (⟨"A", tableA⟩ : LabeledTable) (List.mem_cons_self _ _) "x" 2 (by decide)

/-- C6.  Combining a single labelled canonical table (duplicate-free date
index, the canonical-table invariant) and extracting the same label back
returns the original table up to row order normalization: the date index
comes back as a permutation of the original (equal outright when the
original was sorted), the regions are identical, and every cell value is
unchanged. -/
theorem aggregate_single_roundtrip (L : String) (T : CTable) (hT : T.dates.Nodup) :
    (extractLabel (aggregate_dataframes [⟨L, T⟩]) L).dates.Perm T.dates ∧
    (T.dates.Sorted (· < ·) → (extractLabel (aggregate_dataframes [⟨L, T⟩]) L).dates = T.dates) ∧
    (extractLabel (aggregate_dataframes [⟨L, T⟩]) L).regions = T.regions ∧
    ∀ d ∈ T.dates, ∀ r ∈ T.regions,
      (extractLabel (aggregate_dataframes [⟨L, T⟩]) L).cell d r = T.cell d r := by
  have hflat : (extractLabel (aggregate_dataframes [⟨L, T⟩]) L).dates = sortDates T.dates := by
    show sortDates _ = _
    simp only [List.map_cons, List.map_nil, List.flatten_cons, List.flatten_nil,
      List.append_nil]
  refine ⟨?_, ?_, ?_, ?_⟩
  · rw [hflat]
    refine (List.perm_insertionSort _ _).trans ?_
    rw [hT.dedup]
  · intro hsorted
    rw [hflat]
    exact sortDates_eq_of_sorted hsorted
  · show ((aggregate_dataframes [⟨L, T⟩]).cols.filter (fun c => c.1 = L)).map Prod.snd = _
    simp [aggregate_dataframes, List.filter_map, Function.comp]
  · intro d hd r hr
    show (match [(⟨L, T⟩ : LabeledTable)].find? (fun x => x.label == L) with
      | some lt => if r ∈ lt.table.regions ∧ d ∈ lt.table.dates then lt.table.cell d r else none
      | none => none) = T.cell d r
    rw [List.find?_cons_of_pos _ (by simp)]
    simp [hr, hd]

/-- The table used by the C6 witness. -/
def tableC6 : CTable := ⟨[1, 2], ["x"], fun d _ => some (d : ℚ)⟩

/-- C6 witness: the round trip on a concrete table returns its dates,
regions, and values unchanged. -/
theorem aggregate_single_roundtrip_witness :
    (extractLabel (aggregate_dataframes [⟨"Deaths", tableC6⟩]) "Deaths").dates = [1, 2] ∧
    (extractLabel (aggregate_dataframes [⟨"Deaths", tableC6⟩]) "Deaths").regions = ["x"] ∧
    (extractLabel (aggregate_dataframes [⟨"Deaths", tableC6⟩]) "Deaths").cell 1 "x" = some 1 := by
  have h := aggregate_single_roundtrip "Deaths" tableC6 (by decide)
  exact ⟨h.2.1 (by simp [tableC6, List.sorted_cons]), h.2.2.1,
    (h.2.2.2 1 (by decide) "x" (by decide)).trans (by norm_num [tableC6])⟩

/-! ### C7: region ordering -/

/-- C7.  Whenever `England` occurs among the fetched region columns, the
selection hack returns `England` first followed by the remaining regions
with their original relative order preserved (the tail is a sublist of the
input), and the result is a permutation of the input (no region is lost or
duplicated). -/
theorem region_ordering (cols : List String) (h : "England" ∈ cols) :
    make_regions_to_use cols = "England" :: cols.erase "England" ∧
    List.Sublist (cols.erase "England") cols ∧
    (make_regions_to_use cols).Perm cols := by
  have hlt : cols.indexOf "England" < cols.length := List.indexOf_lt_length.2 h
  have hget : cols.getD (cols.indexOf "England") "England" = "England" := by
    rw [List.getD_eq_getElem _ _ hlt]
    exact List.getElem_indexOf hlt
  have heq : make_regions_to_use cols = "England" :: cols.erase "England" := by
    unfold make_regions_to_use
    rw [hget, List.eraseIdx_indexOf_eq_erase]
  refine ⟨heq, List.erase_sublist _ _, ?_⟩
  rw [heq]
  exact (List.perm_cons_erase h).symm

/-- C7 witness: the spec's own example, base order
`["North East", "England", "London"]`. -/
theorem region_ordering_witness :
    make_regions_to_use ["North East", "England", "London"] =
      ["England", "North East", "London"] ∧
    (make_regions_to_use ["North East", "England", "London"]).Perm
      ["North East", "England", "London"] := by
  have h := region_ordering ["North East", "England", "London"] (by decide)
  exact ⟨h.1.trans (by decide), h.2.2⟩

/-! ### C8: trailing moving average -/

theorem rolling_mean_getD {w : ℕ} {col : List (Option ℚ)} {i : ℕ} (h : i < col.length) :
    (rolling_mean w col).getD i none =
      if w ≤ i + 1 then
        (if ((col.take (i + 1)).drop (i + 1 - w)).all Option.isSome
         then some ((((col.take (i + 1)).drop (i + 1 - w)).filterMap id).sum / (w : ℚ))
         else none)
      else none := by
  unfold rolling_mean
  rw [List.getD_eq_getElem _ _ (by simpa using h)]
  rw [List.getElem_map, List.getElem_range]

theorem take_succ_drop_self {α : Type} (col : List α) (i : ℕ) (h : i < col.length) :
    (col.take (i + 1)).drop i = [col.get ⟨i, h⟩] := by
  rw [List.drop_take]
  have h1 : i + 1 - i = 1 := by omega
  rw [h1, List.drop_eq_getElem_cons h]
  rfl

/-- C8.  The trailing rolling mean of the aggregated table: with window 1
it is the identity at every cell of the table; with window `w ≥ 1` the
value at row `i` of a column is the arithmetic mean of rows
`[i - w + 1, i]` of that column whenever the window is full and all its
entries are present, and the value is missing at each of the first
`w - 1` rows. -/
theorem smoothing_trailing_mean :
    (∀ (t : AggTable) (l r : String) (d : ℕ), d ∈ t.dates →
      (rolling_mean_table 1 t).cell l r d = t.cell l r d) ∧
    (∀ (w : ℕ) (t : AggTable) (l r : String) (i : ℕ) (hi : i < t.dates.length),
      t.dates.Nodup → 1 ≤ w →
      (w ≤ i + 1 →
        (((t.dates.map (t.cell l r)).take (i + 1)).drop (i + 1 - w)).all Option.isSome = true →
        (rolling_mean_table w t).cell l r (t.dates.get ⟨i, hi⟩) =
          some (((((t.dates.map (t.cell l r)).take (i + 1)).drop (i + 1 - w)).filterMap
            id).sum / (w : ℚ))) ∧
      (i + 1 < w →
        (rolling_mean_table w t).cell l r (t.dates.get ⟨i, hi⟩) = none)) := by
  constructor
  · intro t l r d hd
    have hidx : t.dates.indexOf d < t.dates.length := List.indexOf_lt_length.2 hd
    have hcol : t.dates.indexOf d < (t.dates.map (t.cell l r)).length := by
      simpa using hidx
    show (if d ∈ t.dates then _ else none) = _
    rw [if_pos hd, rolling_mean_getD hcol, if_pos (by omega : 1 ≤ t.dates.indexOf d + 1)]
    have h1 : t.dates.indexOf d + 1 - 1 = t.dates.indexOf d := by omega
    rw [h1, take_succ_drop_self _ _ hcol]
    have hcell : (t.dates.map (t.cell l r)).get ⟨t.dates.indexOf d, hcol⟩ = t.cell l r d := by
      rw [List.get_eq_getElem, List.getElem_map]
      congr 1
      exact List.getElem_indexOf hidx
    rw [hcell]
    cases hc : t.cell l r d with
    | none => simp
    | some x => simp
  · intro w t l r i hi hnd hw
    have hd : t.dates.get ⟨i, hi⟩ ∈ t.dates := by
      rw [List.get_eq_getElem]
      exact List.getElem_mem hi
    have hidx : t.dates.indexOf (t.dates.get ⟨i, hi⟩) < t.dates.length :=
      List.indexOf_lt_length.2 hd
    have hio : t.dates.indexOf (t.dates.get ⟨i, hi⟩) = i := by
      have hg : t.dates[t.dates.indexOf (t.dates.get ⟨i, hi⟩)] = t.dates[i] := by
        rw [List.getElem_indexOf hidx, List.get_eq_getElem]
      exact (hnd.getElem_inj_iff).1 hg
    have hcol : i < (t.dates.map (t.cell l r)).length := by simpa using hi
    constructor
    · intro hwin hall
      show (if t.dates.get ⟨i, hi⟩ ∈ t.dates then _ else none) = _
      rw [if_pos hd, hio, rolling_mean_getD hcol, if_pos hwin, if_pos hall]
    · intro hlt
      show (if t.dates.get ⟨i, hi⟩ ∈ t.dates then _ else none) = _
      rw [if_pos hd, hio, rolling_mean_getD hcol, if_neg (by omega)]

/-- The aggregated table used by the C8 witness. -/
def tableC8 : AggTable := ⟨[0, 1, 2], [("Cases", "x")], fun _ _ d => some (d : ℚ)⟩

/-- C8 witness: on a concrete 3-row table, window 1 returns the cell
unchanged; window 2 at row 1 returns the mean `(0 + 1) / 2` of rows 0-1;
window 7 at row 1 is missing (window not yet full). -/
theorem smoothing_trailing_mean_witness :
    (rolling_mean_table 1 tableC8).cell "Cases" "x" 1 = some 1 ∧
    (rolling_mean_table 2 tableC8).cell "Cases" "x" 1 = some (1 / 2) ∧
    (rolling_mean_table 7 tableC8).cell "Cases" "x" 1 = none := by
  have h := smoothing_trailing_mean
  refine ⟨(h.1 tableC8 "Cases" "x" 1 (by decide)).trans (by norm_num [tableC8]), ?_, ?_⟩
  · have h2 := (h.2 2 tableC8 "Cases" "x" 1 (by decide) (by decide) (by decide)).1
      (by decide) (by decide)
    exact h2.trans (by norm_num [tableC8, List.filterMap_cons, List.filterMap_nil,
      List.sum_cons, List.sum_nil])
  · exact (h.2 7 tableC8 "Cases" "x" 1 (by decide) (by decide) (by decide)).2 (by decide)

/-! ### C9: national regions in the symptom-incidence output -/

theorem dropColumns_ok {t u : CTable} {toDrop : List String}
    (h : dropColumns t toDrop = .ok u) :
    u.dates = t.dates ∧ u.regions = t.regions.filter (fun r => r ∉ toDrop) := by
  unfold dropColumns at h
  split at h
  · exact absurd h (by simp)
  · have hu := Except.ok.inj h
    subst hu
    exact ⟨rfl, rfl⟩

theorem Zoe.process_data_ok_regions {raw : List Row} {u : CTable}
    (h : Zoe.process_data raw = .ok u) :
    (∀ r ∈ (pivotTable raw).regions, r ∈ u.regions) ∧
    (∀ r ∈ u.regions,
      r ∈ (pivotTable raw).regions ∨ r = "Midlands" ∨ r = "North East and Yorkshire") := by
  unfold Zoe.process_data at h
  split at h
  · exact absurd h (by simp)
  · cases h1 : apply_int64 (pivotTable raw) with
    | error e =>
      rw [h1] at h
      exact absurd h (by simp)
    | ok t =>
      rw [h1] at h
      have h2 : addZoeComposites t = .ok u := h
      have hao := addZoeComposites_ok h2
      have hreg := (apply_int64_ok h1).2
      constructor
      · intro r hr
        exact hao.2.1 r (by rw [hreg]; exact hr)
      · intro r hr
        rcases hao.2.2 r hr with h3 | h3 | h3
        · exact Or.inl (by rw [← hreg]; exact h3)
        · exact Or.inr (Or.inl h3)
        · exact Or.inr (Or.inr h3)

/-- C9 counterexample.  The refined symptom-incidence normalizer
(`Zoe._process_data` in modules/dataframe_builder.py) does NOT drop the
pre-existing national rows: on a raw table containing a `UK` row, its
output still has a `UK` column. -/
theorem zoe_retains_national_cex :
    "UK" ∈ (tableOf (Zoe.process_data rawZoeUK)).regions := by
  decide

/-- C9 amended.  Only the older top-level `process_zoe` drops the four
national columns: none of `Northern Ireland`, `Scotland`, `UK`, `Wales`
ever appears in its output.  The refined `Zoe._process_data` retains every
pivot column, national ones included.  Neither revision adds a national
total: every output column of the refined normalizer is either a pivot
column of the source or one of the two composites. -/
theorem zoe_national_columns :
    (∀ (raw : List Row) (r : String), r ∈ ["Northern Ireland", "Scotland", "UK", "Wales"] →
      r ∉ (tableOf (process_zoe raw)).regions) ∧
    (∀ raw : List Row, (Zoe.process_data raw).isOk = true →
      ∀ r ∈ (pivotTable raw).regions, r ∈ (tableOf (Zoe.process_data raw)).regions) ∧
    (∀ (raw : List Row) (r : String), r ∈ (tableOf (Zoe.process_data raw)).regions →
      r ∈ (pivotTable raw).regions ∨ r = "Midlands" ∨ r = "North East and Yorkshire") := by
  refine ⟨?_, ?_, ?_⟩
  · intro raw r hfour hmem
    unfold process_zoe at hmem
    split at hmem
    · simp [tableOf, emptyCTable] at hmem
    · cases h1 : apply_int64 (pivotTable raw) with
      | error e =>
        rw [h1] at hmem
        simp [tableOf, emptyCTable] at hmem
      | ok t =>
        rw [h1] at hmem
        have hmemA : r ∈ (tableOf (match
            dropColumns t ["Northern Ireland", "Scotland", "UK", "Wales"] with
          | .error e => .error e
          | .ok t2 => addZoeComposites t2)).regions := hmem
        cases h2 : dropColumns t ["Northern Ireland", "Scotland", "UK", "Wales"] with
        | error e =>
          rw [h2] at hmemA
          simp [tableOf, emptyCTable] at hmemA
        | ok t2 =>
          rw [h2] at hmemA
          have hmemB : r ∈ (tableOf (addZoeComposites t2)).regions := hmemA
          cases h3 : addZoeComposites t2 with
          | error e =>
            rw [h3] at hmemB
            simp [tableOf, emptyCTable] at hmemB
          | ok u =>
            rw [h3] at hmemB
            simp only [tableOf] at hmemB
            rcases (addZoeComposites_ok h3).2.2 r hmemB with hmem2 | rfl | rfl
            · rw [(dropColumns_ok h2).2] at hmem2
              rcases List.mem_filter.1 hmem2 with ⟨_, hnotin⟩
              simp only [decide_not, Bool.not_eq_true', decide_eq_false_iff_not] at hnotin
              exact hnotin hfour
            · simp at hfour
            · simp at hfour
  · intro raw hok r hr
    cases hres : Zoe.process_data raw with
    | error e =>
      rw [hres] at hok
      simp [Except.isOk, Except.toBool] at hok
    | ok u =>
      exact (Zoe.process_data_ok_regions hres).1 r hr
  · intro raw r hr
    cases hres : Zoe.process_data raw with
    | error e =>
      rw [hres] at hr
      simp [tableOf, emptyCTable] at hr
    | ok u =>
      rw [hres] at hr
      simp only [tableOf] at hr
      exact (Zoe.process_data_ok_regions hres).2 r hr

/-- C9 witness: on a concrete raw table containing a `UK` row, the refined
normalizer keeps the `UK` column while the older `process_zoe` output does
not contain it. -/
theorem zoe_national_columns_witness :
    "UK" ∈ (tableOf (Zoe.process_data rawZoeUK)).regions ∧
    "UK" ∉ (tableOf (process_zoe rawZoeUK)).regions := by
  constructor
  · exact zoe_national_columns.2.1 rawZoeUK (by decide) "UK" (by decide)
  · exact zoe_national_columns.1 rawZoeUK "UK" (by decide)

end CovidDashboard
